import Mathlib

/-!
Shallow embedding of the eibi2kiwi repository (eibi2kiwi.py, eibi2kiwi_json.py,
eibi2kiwi_online.py): EiBi shortwave schedule CSV → kiwiSDR CSV → kiwiSDR JSON.

Python strings are embedded as `List Char` (abbreviated `Str`).  Python
exceptions (ValueError from list.index / tuple unpacking / float(), KeyError
from dict lookup, IndexError from out-of-range list indexing) are embedded as
an `Except Err` result; an uncaught exception corresponds to the whole
computation returning `.error`.

Python floats are embedded by their exact decimal value, as a mantissa/scale
pair (`Dec`, value mantissa / 10 ^ scale).  Every frequency in the schedule is
a short decimal; converting such decimals to binary floating point is
monotone and injective on this data, so float comparison coincides with exact
rational comparison and the embedding of the frequency sort is faithful.
-/

set_option maxRecDepth 100000

/-- Kinds of Python runtime errors raised by the translated code. -/

inductive Err where
  | valueError
  | keyError
  | indexError
deriving DecidableEq

deriving instance DecidableEq for Except

/-- Convert a Lean string literal to the `List Char` embedding of Python strings. -/

def chars (s : String) : List Char := s.toList

abbrev Str := List Char

/-- The exact value of a Python float parsed from a decimal literal:
`man / 10 ^ sc`. -/

structure Dec where
  man : Nat
  sc : Nat
deriving DecidableEq, Inhabited

/-- The rational value of an embedded float. -/

def Dec.val (d : Dec) : Rat := (d.man : Rat) / (10 : Rat) ^ d.sc

/-- Comparison of embedded floats by cross multiplication (equivalent to
comparing the rational values, see Dec.leb_iff_val_le). -/

def Dec.leb (a b : Dec) : Bool := a.man * 10 ^ b.sc ≤ b.man * 10 ^ a.sc

/-- eibi2kiwi.py line 26: the `days` dict, weekday abbreviation → 7-bit binstring. -/

def days : List (Str × Str) :=
  [(chars "Mo", chars "1000000"),
   (chars "Tu", chars "0100000"),
   (chars "We", chars "0010000"),
   (chars "Th", chars "0001000"),
   (chars "Fr", chars "0000100"),
   (chars "Sa", chars "0000010"),
   (chars "Su", chars "0000001")]

/-- Python dict lookup `d[k]`: KeyError when the key is absent. -/

def dictGet (d : List (Str × Str)) (k : Str) : Except Err Str :=
  match d.find? (fun p => decide (p.1 = k)) with
  | some p => .ok p.2
  | none => .error .keyError

/-- eibi2kiwi.py line 42 (also line 70): the Monday-first weekday list. -/

def weekdaysL : List Str :=
  [chars "Mo", chars "Tu", chars "We", chars "Th", chars "Fr", chars "Sa", chars "Su"]

/-- Python `list.index(x)`: position of first occurrence, ValueError when absent. -/

def listIndex (l : List Str) (x : Str) : Except Err Nat :=
  match l.findIdx? (fun y => decide (y = x)) with
  | some i => .ok i
  | none => .error .valueError

/-- eibi2kiwi.py lines 37-50, `expand_weekday_range`: expand e.g. "Mo-Th" to
"Mo,Tu,We,Th" and "Sa-Tu" to "Sa,Su,Mo,Tu".  Python slice `l[a:b]` is
`(l.take b).drop a`; the two-variable unpacking of `split("-")` raises
ValueError unless the split has exactly two parts; `list.index` raises
ValueError on an unknown abbreviation. -/

def expand_weekday_range (weekday_range : Str) : Except Err Str :=
  match weekday_range.splitOn '-' with
  | [s, e] =>
    (match listIndex weekdaysL s, listIndex weekdaysL e with
     | .ok start_index, .ok end_index =>
       let result :=
         if start_index ≤ end_index then
           (weekdaysL.take (end_index + 1)).drop start_index
         else
           weekdaysL.drop start_index ++ weekdaysL.take (end_index + 1)
       .ok (List.intercalate (chars ",") result)
     | .error e, _ => .error e
     | _, .error e => .error e)
  | _ => .error .valueError

/-- eibi2kiwi.py lines 53-61, `weekdays_to_binstrings`: map each comma-separated
weekday abbreviation through the days dict (KeyError propagates). -/

def weekdays_to_binstrings (weekdays : Str) (days_dict : List (Str × Str)) :
    Except Err (List Str) :=
  (weekdays.splitOn ',').mapM (fun day => dictGet days_dict day)

/-- Python `int(c)` for a single character: its digit value, ValueError otherwise
(only ASCII digits occur in this data). -/

def pyDigitInt (c : Char) : Except Err Int :=
  if c.isDigit then .ok ((c.toNat : Int) - 48) else .error .valueError

/-- Python list indexing `l[i]` with an `Int` index: negative indices count from
the end (`l[-1]` is the last element); out of range raises IndexError. -/

def pyGetInt (l : List Str) (i : Int) : Except Err Str :=
  if i < 0 then
    if (-i).toNat ≤ l.length then
      match l.get? (l.length - (-i).toNat) with
      | some x => .ok x
      | none => .error .indexError
    else .error .indexError
  else
    match l.get? i.toNat with
    | some x => .ok x
    | none => .error .indexError

/-- One digit of the day-number syntax: daylist[int(number) - 1]. -/

def digitToWeekday (number : Char) : Except Err Str :=
  match pyDigitInt number with
  | .ok v => pyGetInt weekdaysL (v - 1)
  | .error e => .error e

/-- eibi2kiwi.py lines 64-75, `weekdaynumbers_to_binstrings`: map each digit d of
the day-number string to `daylist[int(d) - 1]`, then join with commas and feed
through weekdays_to_binstrings. -/

def weekdaynumbers_to_binstrings (numbers_string : Str) (days_dict : List (Str × Str)) :
    Except Err (List Str) :=
  match numbers_string.mapM digitToWeekday with
  | .ok weekdays_list =>
      weekdays_to_binstrings (List.intercalate (chars ",") weekdays_list) days_dict
  | .error e => .error e

/-- Minimum length across a list of lists (the number of tuples that the
Python form `zip(*lists)` yields). -/

def minLen (ls : List Str) : Nat :=
  match ls with
  | [] => 0
  | l :: rest => rest.foldl (fun m x => min m x.length) l.length

/-- eibi2kiwi.py lines 78-89, `create_weekly_binstring`: `zip(*bin_strings)`
walks the columns (as many as the shortest string has; none when the list is
empty) and ORs each column. -/

def create_weekly_binstring (bin_strings : List Str) : Str :=
  (List.range (minLen bin_strings)).map (fun i =>
    if (bin_strings.map (fun l => l.getD i ' ')).any (fun bit => bit = '1') then '1' else '0')

/-- eibi2kiwi.py line 112: the fixed Monday-first day letters. -/

def dowLetters : List Char := ['M', 'T', 'W', 'T', 'F', 'S', 'S']

/-- eibi2kiwi.py lines 108-119, `binstring_to_dowstring`: position i becomes the
fixed day letter when the binstring has '1' there, else an underscore.  The
letter lookup `days[i]` raises IndexError when a '1' sits at position ≥ 7. -/

def binstring_to_dowstring (bin_string : Str) : Except Err Str :=
  (bin_string.enum).mapM (fun p =>
    if p.2 = '1' then
      match dowLetters.get? p.1 with
      | some d => .ok d
      | none => .error .indexError
    else .ok '_')

/-- eibi2kiwi_json.py lines 64-84, `day_schedule_to_int`: non-underscore
characters become '1', underscores '0', and the binary string is parsed as an
integer (Monday is the most significant of the 7 bits). -/

def day_schedule_to_int (schedule : Str) : Int :=
  let binary_representation := schedule.map (fun c => if c ≠ '_' then '1' else '0')
  binary_representation.foldl (fun a c => a * 2 + (if c = '1' then 1 else 0)) 0

/-- The 7-bit binary string of a weekday mask, Monday (bit 0) first, i.e. the
most significant bit; this is the MaskToLetters input rendering of the spec. -/

def natToBinString7 (m : Nat) : Str :=
  (List.range 7).map (fun i => if m / 2 ^ (6 - i) % 2 = 1 then '1' else '0')

/-- Python `str.isdigit()` for the ASCII data in this file: non-empty and all
characters are digits. -/

def pyIsdigit (s : Str) : Bool :=
  !s.isEmpty && s.all (fun c => c.isDigit)

/-- Python `str.strip()`: remove whitespace from both ends. -/

def pyStrip (s : Str) : Str :=
  ((s.dropWhile Char.isWhitespace).reverse.dropWhile Char.isWhitespace).reverse

/-- Parse digits to a natural number (helper for the numeric parses below). -/

def digitsToNat (s : Str) : Nat :=
  s.foldl (fun a c => a * 10 + (c.toNat - 48)) 0

/-- Python `float(s)` on the plain decimal notation appearing in this data
(digits with at most one decimal point); other shapes raise ValueError. -/

def parsePyFloat (s : Str) : Except Err Dec :=
  if s.all (fun c => c.isDigit || c == '.') ∧ s.count '.' ≤ 1 ∧ s.any (fun c => c.isDigit) then
    let parts := s.splitOn '.'
    let frac := (parts.get? 1).getD []
    .ok ⟨digitsToNat (parts.headD []) * 10 ^ frac.length + digitsToNat frac, frac.length⟩
  else .error .valueError

/-- One row of the source EiBi CSV: the eight columns the converter reads
(row[0] .. row[7] in the main loop). -/

structure SrcRow where
  khz : Str
  time : Str
  day : Str
  itu : Str
  ident : Str
  lang : Str
  target : Str
  rem : Str
deriving DecidableEq, Inhabited

/-- One 12-field record appended to outrow (eibi2kiwi.py lines 176-191).  The
first field is written as str(khz) where khz = float(row[0]); it is embedded as
the parsed decimal value. -/

structure OutRec where
  khz : Dec
  mode : Str
  ident : Str
  notes : Str
  col4 : Str
  typ : Str
  col6 : Str
  col7 : Str
  col8 : Str
  dow : Str
  begin : Str
  endt : Str
deriving DecidableEq, Inhabited

/-- The condition of eibi2kiwi.py line 138: comma list, canonical single token,
the literal "SaSu", or the "1." prefix form. -/

def dayListBranch (day : Str) : Prop :=
  day.contains ',' = true ∨ day ∈ days.map (fun p => p.1) ∨ day = chars "SaSu" ∨
    (chars "1.").isPrefixOf day = true

instance (day : Str) : Decidable (dayListBranch day) := by
  unfold dayListBranch; infer_instance

/-- eibi2kiwi.py lines 133-150: classify the day expression and compute the
day-of-week letter string.  When no branch matches, the mutable DOW variable
keeps the value it entered the iteration with (the fall-through). -/

def computeDOW (DOW0 : Str) (day : Str) : Except Err Str :=
  if pyIsdigit day = true then
    match weekdaynumbers_to_binstrings day days with
    | .ok r => binstring_to_dowstring (create_weekly_binstring r)
    | .error e => .error e
  else if dayListBranch day then
    let day1 := if day = chars "SaSu" then chars "Sa,Su" else day
    let day2 := if (chars "1.").isPrefixOf day1 then day1.drop 2 else day1
    match weekdays_to_binstrings day2 days with
    | .ok r => binstring_to_dowstring (create_weekly_binstring r)
    | .error e => .error e
  else if day.contains '-' = true then
    match expand_weekday_range day with
    | .ok r =>
      (match weekdays_to_binstrings r days with
       | .ok r2 => binstring_to_dowstring (create_weekly_binstring r2)
       | .error e => .error e)
    | .error e => .error e
  else
    .ok DOW0

/-- The 12-field record of eibi2kiwi.py lines 176-191, given the parsed
frequency, the clamped begin/end times and the computed DOW string. -/

def mkOutRec (khz : Dec) (row : SrcRow) (tb0 te0 DOW : Str) : OutRec :=
  let lang := pyStrip row.lang
  let typ := if ['-'].isPrefixOf lang ∨ lang = [] then chars "T4" else chars "T3"
  let lang2 := if lang = [] then [] else chars "Lang: " ++ lang
  let target := pyStrip row.target
  let target2 := if target = [] then [] else chars "Target: " ++ (target ++ chars ".")
  let notes := if row.rem = [] then
      row.itu ++ chars ". " ++ target2 ++ (' ' :: lang2)
    else
      row.itu ++ chars " via " ++ row.rem ++ chars ". " ++ target2 ++ (' ' :: lang2)
  { khz := khz,
    mode := chars "\"QAM\"",
    ident := '"' :: (row.ident ++ ['"']),
    notes := '"' :: (pyStrip notes ++ ['"']),
    col4 := [], typ := '"' :: (typ ++ ['"']), col6 := [], col7 := [], col8 := [],
    dow := if DOW = [] then [] else '"' :: (DOW ++ ['"']),
    begin := if tb0 = chars "0000" then chars "0001" else tb0,
    endt := if te0 = chars "2400" then chars "2359" else te0 }

/-- eibi2kiwi.py lines 125-191: process one source row given the DOW value left
over from the previous iteration, producing the 12-field record. -/

def processRowRec (DOW0 : Str) (row : SrcRow) : Except Err OutRec :=
  match parsePyFloat row.khz with
  | .error e => .error e
  | .ok khz =>
    match row.time.splitOn '-' with
    | [tb0, te0] =>
      (match computeDOW DOW0 row.day with
       | .ok DOW => .ok (mkOutRec khz row tb0 te0 DOW)
       | .error e => .error e)
    | _ => .error .valueError

/-- One loop iteration including line 192: after the record is appended, the
mutable DOW is unconditionally reset to the empty string, so the state leaving
every iteration is empty. -/

def processRow (DOW0 : Str) (row : SrcRow) : Except Err (OutRec × Str) :=
  match processRowRec DOW0 row with
  | .ok r => .ok (r, [])
  | .error e => .error e

/-- The whole row loop, threading the mutable DOW state across iterations; an
uncaught exception in any iteration aborts the whole run. -/

def outrowOf (DOW : Str) (rows : List SrcRow) : Except Err (List OutRec) :=
  match rows with
  | [] => .ok []
  | row :: rest =>
    match processRow DOW row with
    | .ok p =>
      (match outrowOf p.2 rest with
       | .ok rs => .ok (p.1 :: rs)
       | .error e => .error e)
    | .error e => .error e

/-- eibi2kiwi.py lines 194-197: stable sort of the records by the numeric value
of the frequency field (list.sort in Python is stable by specification). -/

def sortRecords (l : List OutRec) : List OutRec :=
  l.mergeSort (fun a b => Dec.leb a.khz b.khz)

/-- The full CSV stage: row loop, then the frequency sort. -/

def kiwiCsvRecords (rows : List SrcRow) : Except Err (List OutRec) :=
  match outrowOf [] rows with
  | .ok l => .ok (sortRecords l)
  | .error e => .error e

/-- A day expression matching none of the three recognized syntaxes. -/

def unrecognizedDay (day : Str) : Prop :=
  ¬(pyIsdigit day = true) ∧ ¬dayListBranch day ∧ ¬(day.contains '-' = true)

instance (day : Str) : Decidable (unrecognizedDay day) := by
  unfold unrecognizedDay; infer_instance

/-- Concrete rows for the C1 counterexample: the first row has day expression
"1" (Monday), the second the unrecognized expression "irr". -/

def c1row1 : SrcRow :=
  { khz := chars "9400", time := chars "0600-1800", day := chars "1",
    itu := chars "F", ident := chars "A", lang := chars "E",
    target := [], rem := [] }

def c1row2 : SrcRow :=
  { khz := chars "9500", time := chars "0700-0800", day := chars "irr",
    itu := chars "F", ident := chars "B", lang := chars "E",
    target := [], rem := [] }

/-- The record list of the single-row run used to witness the amended C1. -/

def c1recs : List OutRec :=
  (outrowOf [] [c1row2]).toOption.getD []

/-- Concrete records for the C9 example: frequencies 15070, 9400 and 9400.5
(values as parsed by parsePyFloat, see the last three conjuncts of the claim
theorem), in unsorted input order, with distinct identifiers. -/

def c9rec (d : Dec) (tag : Str) : OutRec :=
  { khz := d, mode := [], ident := tag, notes := [], col4 := [], typ := [],
    col6 := [], col7 := [], col8 := [], dow := [], begin := [], endt := [] }

/-- Whether an embedded Python computation finished without raising. -/

def isOkE {α : Type} (e : Except Err α) : Bool :=
  match e with
  | .ok _ => true
  | .error _ => false

/-- The row reaches the range branch of the day classification and the range
expansion raises there: the frequency parses, the time range unpacks, the day
expression is neither all-digit nor a list/token form, it contains a hyphen,
and expand_weekday_range raises on it. -/

def rangeBranchRaises (row : SrcRow) : Prop :=
  isOkE (parsePyFloat row.khz) = true ∧
  (row.time.splitOn '-').length = 2 ∧
  ¬(pyIsdigit row.day = true) ∧ ¬dayListBranch row.day ∧ row.day.contains '-' = true ∧
  isOkE (expand_weekday_range row.day) = false

instance (row : SrcRow) : Decidable (rangeBranchRaises row) := by
  unfold rangeBranchRaises; infer_instance

/-- The concrete row used to witness C5: day field "Mo-Xx". -/

def c5row : SrcRow :=
  { khz := chars "9400", time := chars "0600-1800", day := chars "Mo-Xx",
    itu := chars "F", ident := chars "A", lang := chars "E",
    target := [], rem := [] }

/-- eibi2kiwi_online.py lines 266-275: relay-field handling of the remote-fetch
variant.  When the relay field contains a '/', the field is split on '-'
(every hyphen); the corrected country code is the first part with its first
character stripped, and the transmitter-site code is the second part when the
split produced one (the try/except leaves it empty otherwise).  When there is
no '/', the ITU code is kept and the whole relay field is the site code.
SplitOn never returns an empty list, so the final arm is unreachable. -/

def parseRelay (itu rem : Str) : Str × Str :=
  if rem.contains '/' = true then
    match rem.splitOn '-' with
    | s0 :: rest => (s0.drop 1, match rest with | s1 :: _ => s1 | [] => [])
    | [] => ([], [])
  else (itu, rem)

/-- Modelled from the spec (the claim side of C7, for comparison with
parseRelay): the country code is the portion of the relay field before the
'/' with its first character stripped, and the site code is the portion after
the '/'. -/

def parseRelaySpecC7 (itu rem : Str) : Str × Str :=
  if rem.contains '/' = true then
    ((rem.takeWhile (fun c => !(c == '/'))).drop 1,
     (rem.dropWhile (fun c => !(c == '/'))).drop 1)
  else (itu, rem)

/-- The always-safe characters of urllib: ASCII letters, digits, and "_.-~". -/

def isAlwaysSafe (c : Char) : Bool :=
  c.isAlpha || c.isDigit || c == '_' || c == '.' || c == '-' || c == '~'

/-- The UTF-8 bytes of a character, as natural numbers. -/

def utf8Bytes (c : Char) : List Nat :=
  let v := c.toNat
  if v < 128 then [v]
  else if v < 2048 then [192 + v / 64, 128 + v % 64]
  else if v < 65536 then [224 + v / 4096, 128 + v / 64 % 64, 128 + v % 64]
  else [240 + v / 262144, 128 + v / 4096 % 64, 128 + v / 64 % 64, 128 + v % 64]

/-- Upper-case hex digit of a nibble. -/

def hexUpper (n : Nat) : Char := (chars "0123456789ABCDEF").getD (n % 16) '0'

/-- One percent-escape triple, upper-case hex as urllib produces it. -/

def pctTriple (b : Nat) : Str := ['%', hexUpper (b / 16), hexUpper (b % 16)]

/-- urllib.parse.quote(text, safe=" "): keep the always-safe characters and
the space literal, percent-escape every other UTF-8 byte with upper-case hex. -/

def quoteChar (c : Char) : Str :=
  if isAlwaysSafe c || c == ' ' then [c] else (utf8Bytes c).flatMap pctTriple

def pyQuoteSafeSpace (text : Str) : Str := text.flatMap quoteChar

/-- Python str.replace(pat, rep): replace non-overlapping occurrences, leftmost
first.  The fuel argument (one unit per examined character, at least the
length of the string) makes the recursion structural; every use supplies
sufficient fuel. -/

def replaceAllGo (pat rep : Str) : Nat → Str → Str
  | _, [] => []
  | 0, s => s
  | fuel + 1, c :: cs =>
    if pat ≠ [] ∧ pat.isPrefixOf (c :: cs) then
      rep ++ replaceAllGo pat rep fuel ((c :: cs).drop pat.length)
    else c :: replaceAllGo pat rep fuel cs

def replaceAll (pat rep s : Str) : Str := replaceAllGo pat rep s.length s

/-- The character class of the regex %[0-9A-Fa-f]\x7b2\x7d. -/

def isHexDig (c : Char) : Bool :=
  c.isDigit || (decide ('A' ≤ c) && decide (c ≤ 'F')) || (decide ('a' ≤ c) && decide (c ≤ 'f'))

/-- eibi2kiwi_json.py line 53: re.sub of that regex, lower-casing each matched
percent-escape, scanning left to right without overlap. -/

def lowerEscapes : Str → Str
  | '%' :: a :: b :: rest =>
    if isHexDig a ∧ isHexDig b then '%' :: a.toLower :: b.toLower :: lowerEscapes rest
    else '%' :: lowerEscapes (a :: b :: rest)
  | c :: rest => c :: lowerEscapes rest
  | [] => []

/-- eibi2kiwi_json.py lines 39-53, `encode_preserve_case`: quote with spaces
kept, un-escape the punctuation allow-list in source order, then lower-case
the remaining escapes. -/

def encode_preserve_case (text : Str) : Str :=
  lowerEscapes
    (replaceAll (chars "%26") (chars "&")
      (replaceAll (chars "%29") (chars ")")
        (replaceAll (chars "%28") (chars "(")
          (replaceAll (chars "%2C") (chars ",")
            (replaceAll (chars "%3E") (chars ">")
              (replaceAll (chars "%3C") (chars "<")
                (replaceAll (chars "%3A") (chars ":")
                  (replaceAll (chars "%20") (chars " ")
                    (pyQuoteSafeSpace text)))))))))

/-- Python str.strip(ch) for a single character argument. -/

def pyStripChar (ch : Char) (s : Str) : Str :=
  ((s.dropWhile (fun c => c == ch)).reverse.dropWhile (fun c => c == ch)).reverse

/-- csv.reader unquoting of one field, for the field shapes this pipeline
writes (no embedded quotes, separators or newlines inside fields): a field
wrapped in double quotes loses them, anything else passes through. -/

def csvReadField (f : Str) : Str :=
  match f with
  | '"' :: rest => if rest ≠ [] ∧ rest.getLast? = some '"' then rest.dropLast else f
  | _ => f

/-- csv.reader on one line of the intermediate CSV: an empty line yields an
empty row, otherwise the semicolon-separated fields, unquoted. -/

def csvParseLine (line : Str) : List Str :=
  if line = [] then [] else (line.splitOn ';').map csvReadField

/-- Python int(s) for the non-negative digit strings of this data. -/

def pyParseInt (s : Str) : Except Err Int :=
  if s ≠ [] ∧ s.all (fun c => c.isDigit) then .ok (digitsToNat s) else .error .valueError

/-- Python round(x, 2): round half to even at two decimals; the identity on
values that already have at most two decimals (every value in this data). -/

def pyRound2 (d : Dec) : Dec :=
  if d.sc ≤ 2 then d
  else
    let den := 10 ^ (d.sc - 2)
    let q := d.man / den
    let r := d.man % den
    let q2 := if 2 * r < den then q
      else if den < 2 * r then q + 1
      else (if q % 2 = 0 then q else q + 1)
    ⟨q2, 2⟩

/-- One 5-element record of the JSON output (eibi2kiwi_json.py lines 121-129):
frequency, band tag, percent-encoded station name, percent-encoded details,
and the metadata mapping in insertion order. -/

structure JsonRec where
  frequency : Dec
  band : Str
  station : Str
  details : Str
  metadata : List (Str × Int)
deriving DecidableEq, Inhabited

/-- eibi2kiwi_json.py lines 108-118: build the metadata dict in insertion
order from the begin field (row[10]), end field (row[11]) and day-letter
field (row[9]): the constant marker first, then b0 (parsed, or defaulted to 0
when absent but e0 present), then e0 symmetrically, then d0. -/

def metaOfRow (tb te dow : Str) : Except Err (List (Str × Int)) :=
  let b0e : Except Err (List (Str × Int)) :=
    if pyStrip tb ≠ [] then
      match pyParseInt (pyStrip (tb.filter (fun c => !(c == '\'')))) with
      | .ok v => .ok [(chars "b0", v)]
      | .error e => .error e
    else if pyStrip te ≠ [] then .ok [(chars "b0", 0)] else .ok []
  let e0e : Except Err (List (Str × Int)) :=
    if pyStrip te ≠ [] then
      match pyParseInt (pyStrip (te.filter (fun c => !(c == '\'')))) with
      | .ok v => .ok [(chars "e0", v)]
      | .error e => .error e
    else if pyStrip tb ≠ [] then .ok [(chars "e0", 0)] else .ok []
  let d0l : List (Str × Int) :=
    if pyStrip dow ≠ [] then [(chars "d0", day_schedule_to_int dow)] else []
  match b0e, e0e with
  | .ok b, .ok e => .ok ([(chars "T3", 1)] ++ b ++ e ++ d0l)
  | .error er, _ => .error er
  | _, .error er => .error er

/-- eibi2kiwi_json.py lines 101-129: process one csv-parsed row into one JSON
record.  A row shorter than 12 fields raises IndexError. -/

def jsonRowOfFields (row : List Str) : Except Err JsonRec :=
  match row.get? 0, row.get? 1, row.get? 2, row.get? 3, row.get? 9, row.get? 10,
      row.get? 11 with
  | some f0, some f1, some f2, some f3, some f9, some f10, some f11 =>
    (match parsePyFloat f0 with
     | .ok freq =>
       (match metaOfRow f10 f11 f9 with
        | .ok md =>
          .ok { frequency := pyRound2 freq,
                band := pyStripChar '"' f1,
                station := encode_preserve_case (pyStripChar '"' f2),
                details := encode_preserve_case (pyStripChar '"' f3),
                metadata := md }
        | .error e => .error e)
     | .error e => .error e)
  | _, _, _, _, _, _, _ => .error .indexError

/-- eibi2kiwi_json.py lines 95-129, `csv_to_json` up to serialization: parse
every input line, skip the first row (next(reader, None), commented "Skip the
header row" although the intermediate CSV this pipeline produces has no
header), skip empty rows, and emit one record per remaining row. -/

def csv_to_json (lines : List Str) : Except Err (List JsonRec) :=
  (((lines.map csvParseLine).drop 1).filter (fun r => decide (r ≠ []))).mapM jsonRowOfFields

/-- Normalize away trailing zero fraction digits (Python float printing). -/

def decNorm : Nat → Nat → Dec
  | man, 0 => ⟨man, 0⟩
  | man, sc + 1 => if man % 10 = 0 then decNorm (man / 10) sc else ⟨man, sc + 1⟩

/-- The decimal digit character of n (n < 10). -/

def digitChar (n : Nat) : Char := (chars "0123456789").getD n '0'

def natDigitsGo : Nat → Nat → Str
  | 0, _ => []
  | fuel + 1, n => if n < 10 then [digitChar n] else natDigitsGo fuel (n / 10) ++ [digitChar (n % 10)]

/-- The decimal digits of a natural number. -/

def natDigits (n : Nat) : Str := natDigitsGo (n + 1) n

/-- Left-pad a digit string with zeros to the given length. -/

def padDigits (len : Nat) (s : Str) : Str := List.replicate (len - s.length) '0' ++ s

/-- Python str(float) for floats whose value has a short exact decimal
expansion (every value arising in this development): the shortest round-trip
decimal, with ".0" appended to integral values. -/

def pyFloatRepr (d : Dec) : Str :=
  let n := decNorm d.man d.sc
  if n.sc = 0 then natDigits n.man ++ chars ".0"
  else natDigits (n.man / 10 ^ n.sc) ++ '.' :: padDigits n.sc (natDigits (n.man % 10 ^ n.sc))

/-- The 12 written fields of one intermediate record (eibi2kiwi.py lines
176-191, first field str(khz)). -/

def recFields (r : OutRec) : List Str :=
  [pyFloatRepr r.khz, r.mode, r.ident, r.notes, r.col4, r.typ, r.col6, r.col7, r.col8,
   r.dow, r.begin, r.endt]

/-- One written line of the intermediate CSV (eibi2kiwi.py line 201). -/

def recLine (r : OutRec) : Str := List.intercalate (chars ";") (recFields r)

/-- The C3 source row: day "1345", time "0600-1800", language "E", empty
target and relay (frequency and identifying fields chosen concretely). -/

def c3row : SrcRow :=
  { khz := chars "9400", time := chars "0600-1800", day := chars "1345",
    itu := chars "F", ident := chars "S", lang := chars "E",
    target := [], rem := [] }

/-- A well-formed one-record intermediate CSV line. -/

def c6line : Str :=
  chars "9400.0;\"QAM\";\"S\";\"F. Lang: E\";;\"T3\";;;;\"M_WTF__\";0600;1800"

/-- The readable-safe set of the spec: the unreserved URL characters, the space,
and the punctuation allow-list (colon, angle brackets, comma, parentheses,
ampersand). -/

def readableSafe (c : Char) : Bool :=
  isAlwaysSafe c || c == ' ' || c == ':' || c == '<' || c == '>' || c == ',' ||
    c == '(' || c == ')' || c == '&'

/-- Lower-case hex digit of a nibble. -/

def hexLower (n : Nat) : Char := (chars "0123456789abcdef").getD (n % 16) '0'

/-- One lower-case percent-escape triple. -/

def pctTripleLower (b : Nat) : Str := ['%', hexLower (b / 16), hexLower (b % 16)]

/-- Modelled from the spec (the claim side of C8, for comparison with
encode_preserve_case): standard URL percent-encoding in which spaces and the
punctuation allow-list stay literal and the remaining escapes use lower-case
hex digits. -/

def urlEncodeReadable (text : Str) : Str :=
  text.flatMap (fun c =>
    if readableSafe c then [c] else (utf8Bytes c).flatMap pctTripleLower)

/-- The encoder output of one character as a list of atomic units: a literal
safe character, or one percent-triple per UTF-8 byte. -/

def unitsOfChar (c : Char) : List Str :=
  if isAlwaysSafe c || c == ' ' then [[c]] else (utf8Bytes c).map pctTriple

/-- A unit of quoted output: a single non-percent character, or a
percent-triple with hex digits. -/

def goodUnit (u : Str) : Prop :=
  (∃ a, u = [a] ∧ a ≠ '%') ∨
  (∃ x y, u = ['%', x, y] ∧ isHexDig x = true ∧ isHexDig y = true)

/-- The effect of one str.replace pass on one unit. -/

def substUnit (pat rep u : Str) : Str := if u = pat then rep else u

/-- The effect of the escape-lower-casing pass on one unit. -/

def lowerUnit (u : Str) : Str :=
  match u with
  | [p, x, y] => if p = '%' then [p, x.toLower, y.toLower] else u
  | _ => u

/-- The combined effect of the eight un-escape passes and the lower-casing
pass on one unit, in source order. -/

def encodeUnitMap (u : Str) : Str :=
  lowerUnit
    (substUnit (chars "%26") (chars "&")
      (substUnit (chars "%29") (chars ")")
        (substUnit (chars "%28") (chars "(")
          (substUnit (chars "%2C") (chars ",")
            (substUnit (chars "%3E") (chars ">")
              (substUnit (chars "%3C") (chars "<")
                (substUnit (chars "%3A") (chars ":")
                  (substUnit (chars "%20") (chars " ") u))))))))

lemma computeDOW_unrecognized (DOW0 day : Str) (h : unrecognizedDay day) :
    computeDOW DOW0 day = .ok DOW0 := by
  obtain ⟨h1, h2, h3⟩ := h
  unfold computeDOW
  rw [if_neg h1, if_neg h2, if_neg h3]

lemma processRowRec_dow_empty (row : SrcRow) (r : OutRec)
    (h : processRowRec [] row = .ok r) (hd : unrecognizedDay row.day) :
    r.dow = [] := by
  unfold processRowRec at h
  cases hk : parsePyFloat row.khz with
  | error e => rw [hk] at h; cases h
  | ok khz =>
    rw [hk] at h
    rcases hs : row.time.splitOn '-' with _ | ⟨b, _ | ⟨e, _ | _⟩⟩ <;> rw [hs] at h
    · cases h
    · cases h
    · rw [computeDOW_unrecognized [] row.day hd] at h
      cases h
      rfl
    · cases h

/-- Claim C1 (amended): a row whose day expression matches none of the three
recognized syntaxes is emitted with an EMPTY day-letter field.  The mutable DOW
is reset to the empty string at the end of every iteration (line 192), so the
value of the previous row never carries over. -/
theorem c1_unrecognized_day_empty :
    ∀ (rows : List SrcRow) (recs : List OutRec),
      outrowOf [] rows = .ok recs →
      ∀ i, i < rows.length → i < recs.length →
        unrecognizedDay ((rows.getD i default).day) →
        (recs.getD i default).dow = [] := by
  intro rows
  induction rows with
  | nil => intro recs _ i hi; simp at hi
  | cons row rest ih =>
    intro recs hrecs i hi hir hday
    unfold outrowOf at hrecs
    cases hpr : processRow [] row with
    | error e => rw [hpr] at hrecs; cases hrecs
    | ok p =>
      rw [hpr] at hrecs
      dsimp only at hrecs
      have hp2 : p.2 = [] := by
        unfold processRow at hpr
        cases hrr : processRowRec [] row with
        | error e => rw [hrr] at hpr; cases hpr
        | ok r => rw [hrr] at hpr; cases hpr; rfl
      rw [hp2] at hrecs
      cases hrest : outrowOf [] rest with
      | error e => rw [hrest] at hrecs; cases hrecs
      | ok rs =>
        rw [hrest] at hrecs
        cases hrecs
        cases i with
        | zero =>
          have hr1 : processRowRec [] row = .ok p.1 := by
            unfold processRow at hpr
            cases hrr : processRowRec [] row with
            | error e => rw [hrr] at hpr; cases hpr
            | ok r => rw [hrr] at hpr; cases hpr; rfl
          simpa using processRowRec_dow_empty row p.1 hr1 (by simpa using hday)
        | succ n =>
          simp only [List.getD_cons_succ] at hday ⊢
          exact ih rs hrest n (by simpa using hi) (by simpa using hir) hday

/-- Claim C1 (counterexample): in a two-row run where row 1 computes day
letters "M______" and the day expression of row 2 is unrecognized, row 2 is
emitted with an empty day-letter field, not with the value of row 1 — the claimed
carry-over does not happen. -/
theorem c1_counterexample :
    (match outrowOf [] [c1row1, c1row2] with
     | .ok l => l.map OutRec.dow
     | .error _ => []) = [chars "\"M______\"", []] ∧
    ([] : Str) ≠ chars "\"M______\"" := by
  exact ⟨by decide, by decide⟩

/-- Witness for the amended C1 at a concrete input. -/
theorem c1_unrecognized_day_empty_witness :
    (c1recs.getD 0 default).dow = [] := by
  exact c1_unrecognized_day_empty [c1row2] c1recs (by decide) 0 (by decide) (by decide)
    (by decide)

/-- Claim C2: rendering any of the 128 possible 7-bit weekday masks as a
day-letter string (binstring_to_dowstring of its 7-bit binary string, Monday =
bit 0 = most significant) and converting back with day_schedule_to_int yields
the original mask value. -/
theorem c2_mask_letters_roundtrip (m : Fin 128) :
    Except.map day_schedule_to_int (binstring_to_dowstring (natToBinString7 m)) =
      (Except.ok ((m : Nat) : Int) : Except Err Int) := by
  revert m
  decide

/-- Claim C4: for canonical weekday endpoints, range expansion yields the
contiguous Monday-first slice when the start ordinal is at most the end
ordinal, and otherwise wraps past Sunday back to Monday; in particular
"Sa-Tu" expands to Sa,Su,Mo,Tu and "Mo-Th" to Mo,Tu,We,Th. -/
theorem c4_expand_weekday_range_spec :
    (∀ i j : Fin 7,
      expand_weekday_range (weekdaysL.getD i [] ++ '-' :: weekdaysL.getD j []) =
        .ok (List.intercalate (chars ",")
          (if (i : Nat) ≤ (j : Nat) then
            (weekdaysL.take ((j : Nat) + 1)).drop (i : Nat)
          else
            weekdaysL.drop (i : Nat) ++ weekdaysL.take ((j : Nat) + 1)))) ∧
    expand_weekday_range (chars "Sa-Tu") = .ok (chars "Sa,Su,Mo,Tu") ∧
    expand_weekday_range (chars "Mo-Th") = .ok (chars "Mo,Tu,We,Th") := by
  refine ⟨fun i j => ?_, by decide, by decide⟩
  revert i j
  decide

lemma Dec.leb_iff_val_le (a b : Dec) : a.leb b = true ↔ a.val ≤ b.val := by
  unfold Dec.leb Dec.val
  rw [div_le_div_iff₀ (by positivity) (by positivity), decide_eq_true_iff]
  constructor
  · intro h
    exact_mod_cast h
  · intro h
    exact_mod_cast h

lemma leOut_trans (a b c : OutRec) (h1 : Dec.leb a.khz b.khz) (h2 : Dec.leb b.khz c.khz) :
    Dec.leb a.khz c.khz := by
  rw [Dec.leb_iff_val_le] at h1 h2 ⊢
  exact le_trans h1 h2

lemma leOut_total (a b : OutRec) : (Dec.leb a.khz b.khz || Dec.leb b.khz a.khz) = true := by
  rw [Bool.or_eq_true, Dec.leb_iff_val_le, Dec.leb_iff_val_le]
  exact le_total _ _

/-- Claim C9: the CSV-stage output is stable-sorted ascending by the numeric
(parsed float) value of the frequency field: the result is pairwise ordered by
numeric value, is a permutation of the input, and records of equal frequency
value keep their input order (stability, stated as filter-invariance for every
frequency value); in particular inputs with frequencies 15070, 9400, 9400.5
come out in the order 9400, 9400.5, 15070 (numeric, not lexicographic). -/
theorem c9_sort_numeric_stable :
    (∀ l : List OutRec,
        List.Pairwise (fun a b : OutRec => a.khz.val ≤ b.khz.val) (sortRecords l) ∧
        (sortRecords l).Perm l ∧
        ∀ q : Rat, (sortRecords l).filter (fun r => decide (r.khz.val = q)) =
          l.filter (fun r => decide (r.khz.val = q))) ∧
    sortRecords [c9rec ⟨15070, 0⟩ (chars "A"), c9rec ⟨9400, 0⟩ (chars "B"),
        c9rec ⟨94005, 1⟩ (chars "C")] =
      [c9rec ⟨9400, 0⟩ (chars "B"), c9rec ⟨94005, 1⟩ (chars "C"),
        c9rec ⟨15070, 0⟩ (chars "A")] ∧
    parsePyFloat (chars "15070") = .ok ⟨15070, 0⟩ ∧
    parsePyFloat (chars "9400") = .ok ⟨9400, 0⟩ ∧
    parsePyFloat (chars "9400.5") = .ok ⟨94005, 1⟩ := by
  refine ⟨fun l => ⟨?_, ?_, ?_⟩, ?_, by decide, by decide, by decide⟩
  · have hs : List.Pairwise (fun a b : OutRec => Dec.leb a.khz b.khz = true) (sortRecords l) :=
      List.sorted_mergeSort leOut_trans leOut_total l
    exact hs.imp (fun h => (Dec.leb_iff_val_le _ _).mp h)
  · exact List.mergeSort_perm l _
  · intro q
    have h1 : List.Sublist (l.filter (fun r => decide (r.khz.val = q))) l :=
      List.filter_sublist l
    have hp : (l.filter (fun r => decide (r.khz.val = q))).Pairwise
        (fun a b : OutRec => Dec.leb a.khz b.khz = true) := by
      apply List.pairwise_of_forall_mem_list
      intro a ha b hb
      have hqa : a.khz.val = q := by simpa using (List.mem_filter.mp ha).2
      have hqb : b.khz.val = q := by simpa using (List.mem_filter.mp hb).2
      rw [Dec.leb_iff_val_le, hqa, hqb]
    have h2 := List.sublist_mergeSort leOut_trans leOut_total hp h1
    have h3 := h2.filter (fun r => decide (r.khz.val = q))
    rw [List.filter_filter] at h3
    simp only [Bool.and_self] at h3
    have hperm := (List.mergeSort_perm l (fun a b : OutRec => Dec.leb a.khz b.khz)).filter
      (fun r => decide (r.khz.val = q))
    exact (h3.eq_of_length (hperm.length_eq.symm)).symm
  · simp +decide [sortRecords, List.mergeSort, List.merge, Dec.leb]

lemma splitOn_sep (sep : Char) (a b : Str) (ha : sep ∉ a) (hb : sep ∉ b) :
    (a ++ sep :: b).splitOn sep = [a, b] := by
  show (a ++ sep :: b).splitOnP (fun x => x == sep) = [a, b]
  have hfirst : (a ++ sep :: b).splitOnP (fun x => x == sep) =
      a :: b.splitOnP (fun x => x == sep) :=
    List.splitOnP_first _ _
      (fun x hx => by simp only [beq_iff_eq]; rintro rfl; exact ha hx) sep (by simp) b
  have hsingle : b.splitOnP (fun x => x == sep) = [b] :=
    List.splitOnP_eq_single _ _
      (fun x hx => by simp only [beq_iff_eq]; rintro rfl; exact hb hx)
  rw [hfirst, hsingle]

lemma listIndex_error_iff (l : List Str) (x : Str) :
    listIndex l x = .error .valueError ↔ x ∉ l := by
  constructor
  · intro h hx
    have hsome := List.findIdx?_eq_some_of_exists (p := fun y => decide (y = x))
      ⟨x, hx, by simp⟩
    rw [listIndex, hsome] at h
    cases h
  · intro hx
    have hnone : l.findIdx? (fun y => decide (y = x)) = none :=
      List.findIdx?_eq_none_iff.mpr (fun y hy => by
        simp only [decide_eq_false_iff_not]
        rintro rfl
        exact hx hy)
    rw [listIndex, hnone]

lemma listIndex_ok_of_mem (l : List Str) (x : Str) (hx : x ∈ l) :
    listIndex l x = .ok (l.findIdx (fun y => decide (y = x))) := by
  rw [listIndex, List.findIdx?_eq_some_of_exists ⟨x, hx, by simp⟩]

lemma computeDOW_range_error (DOW0 day : Str) (e : Err)
    (h1 : ¬(pyIsdigit day = true)) (h2 : ¬dayListBranch day)
    (h3 : day.contains '-' = true) (hx : expand_weekday_range day = .error e) :
    computeDOW DOW0 day = .error e := by
  unfold computeDOW
  rw [if_neg h1, if_neg h2, if_pos h3, hx]

lemma processRow_error_of_range (row : SrcRow) (h : rangeBranchRaises row) (d : Str) :
    ∃ e, processRow d row = .error e := by
  obtain ⟨hk, ht, h1, h2, h3, hx⟩ := h
  cases hke : parsePyFloat row.khz with
  | error e => rw [hke] at hk; simp [isOkE] at hk
  | ok khz =>
    cases hxe : expand_weekday_range row.day with
    | ok r => rw [hxe] at hx; simp [isOkE] at hx
    | error e =>
      refine ⟨e, ?_⟩
      unfold processRow processRowRec
      rw [hke]
      rcases hs : row.time.splitOn '-' with _ | ⟨tb, _ | ⟨te, _ | _⟩⟩ <;>
        rw [hs] at ht <;> simp at ht
      rw [computeDOW_range_error d row.day e h1 h2 h3 hxe]

lemma processRow_snd_empty (d : Str) (row : SrcRow) (p : OutRec × Str)
    (h : processRow d row = .ok p) : p.2 = [] := by
  unfold processRow at h
  cases hrr : processRowRec d row with
  | error e => rw [hrr] at h; cases h
  | ok r => rw [hrr] at h; cases h; rfl

lemma outrowOf_error_of_raises :
    ∀ (rows : List SrcRow) (row : SrcRow), row ∈ rows → rangeBranchRaises row →
      ∃ e, outrowOf [] rows = .error e := by
  intro rows
  induction rows with
  | nil => intro row h; cases h
  | cons head rest ih =>
    intro row hmem hraises
    rcases List.mem_cons.mp hmem with rfl | hmem'
    · obtain ⟨e, he⟩ := processRow_error_of_range row hraises []
      exact ⟨e, by unfold outrowOf; rw [he]⟩
    · cases hpr : processRow [] head with
      | error e => exact ⟨e, by unfold outrowOf; rw [hpr]⟩
      | ok p =>
        obtain ⟨e, he⟩ := ih row hmem' hraises
        refine ⟨e, ?_⟩
        unfold outrowOf
        rw [hpr]
        dsimp only
        rw [processRow_snd_empty [] head p hpr, he]

/-- Claim C5: for a day field of the form a-b with exactly one hyphen that
reaches the range branch, range expansion raises (the InvalidRangeError of
the spec, a Python ValueError from list.index) exactly when one of
the two endpoints is not a canonical weekday abbreviation; and the exception
is uncaught: any row that raises in the range branch aborts the whole run (no
record list is produced at all), rather than only that record. -/
theorem c5_invalid_range_error :
    (∀ a b : Str, '-' ∉ a → '-' ∉ b →
      (expand_weekday_range (a ++ '-' :: b) = .error .valueError ↔
        (a ∉ weekdaysL ∨ b ∉ weekdaysL))) ∧
    (∀ (rows : List SrcRow) (row : SrcRow), row ∈ rows → rangeBranchRaises row →
      ∃ e, outrowOf [] rows = .error e) := by
  refine ⟨?_, outrowOf_error_of_raises⟩
  intro a b ha hb
  unfold expand_weekday_range
  rw [splitOn_sep '-' a b ha hb]
  dsimp only
  by_cases hA : a ∈ weekdaysL
  · by_cases hB : b ∈ weekdaysL
    · rw [listIndex_ok_of_mem _ _ hA, listIndex_ok_of_mem _ _ hB]
      simp [hA, hB]
    · rw [listIndex_ok_of_mem _ _ hA, (listIndex_error_iff _ _).mpr hB]
      simp [hB]
  · rw [(listIndex_error_iff _ _).mpr hA]
    cases hBi : listIndex weekdaysL b with
    | ok i => simp [hA]
    | error e => simp [hA]

/-- Witness for C5 at a concrete input. -/
theorem c5_invalid_range_error_witness :
    expand_weekday_range (chars "Mo" ++ '-' :: chars "Xx") = .error .valueError ∧
    ∃ e, outrowOf [] [c5row] = .error e := by
  constructor
  · exact (c5_invalid_range_error.1 (chars "Mo") (chars "Xx") (by decide) (by decide)).mpr
      (Or.inr (by decide))
  · exact c5_invalid_range_error.2 [c5row] c5row (by simp) (by decide)

lemma isOkE_true_iff {α : Type} (e : Except Err α) : isOkE e = true ↔ ∃ v, e = .ok v := by
  cases e <;> simp [isOkE]

lemma char_digit_mem (c : Char) (h : c.isDigit = true) : c ∈ chars "0123456789" := by
  simp only [Char.isDigit, Bool.and_eq_true, decide_eq_true_eq] at h
  obtain ⟨h1, h2⟩ := h
  have hn1 : 48 ≤ c.toNat := UInt32.le_toNat_of_le (by decide) h1
  have hn2 : c.toNat ≤ 57 := UInt32.toNat_le_of_le (by decide) h2
  have hc : c = Char.ofNat c.toNat := (Char.ofNat_toNat c).symm
  have hcase : c.toNat = 48 ∨ c.toNat = 49 ∨ c.toNat = 50 ∨ c.toNat = 51 ∨ c.toNat = 52 ∨
      c.toNat = 53 ∨ c.toNat = 54 ∨ c.toNat = 55 ∨ c.toNat = 56 ∨ c.toNat = 57 := by omega
  rcases hcase with h | h | h | h | h | h | h | h | h | h <;> rw [h] at hc <;> rw [hc] <;>
    decide

lemma digitToWeekday_cases (c : Char) (h : c.isDigit = true) :
    ((c = '8' ∨ c = '9') ∧ digitToWeekday c = .error .indexError) ∨
    (¬(c = '8' ∨ c = '9') ∧ ∃ w, digitToWeekday c = .ok w ∧ w ∈ weekdaysL) := by
  have hc := char_digit_mem c h
  rw [show chars "0123456789" = ['0', '1', '2', '3', '4', '5', '6', '7', '8', '9'] from rfl]
    at hc
  fin_cases hc <;>
    first
      | exact Or.inl ⟨by decide, by decide⟩
      | exact Or.inr ⟨by decide, _, rfl, by decide⟩

lemma mapM_digits_spec :
    ∀ s : Str, (∀ c ∈ s, c.isDigit = true) →
      (('8' ∈ s ∨ '9' ∈ s) → s.mapM digitToWeekday = .error .indexError) ∧
      (¬('8' ∈ s ∨ '9' ∈ s) → ∃ ws, s.mapM digitToWeekday = .ok ws ∧
        (∀ w ∈ ws, w ∈ weekdaysL) ∧ ws.length = s.length) := by
  intro s
  induction s with
  | nil =>
    intro _
    refine ⟨fun h => ?_, fun _ => ⟨[], rfl, by simp, by simp⟩⟩
    rcases h with h | h <;> simp at h
  | cons c cs ih =>
    intro hdig
    have hc := hdig c (List.mem_cons_self c cs)
    have ihs := ih (fun x hx => hdig x (List.mem_cons_of_mem c hx))
    rcases digitToWeekday_cases c hc with ⟨h89, herr⟩ | ⟨h89, w, hok, hwmem⟩
    · constructor
      · intro _
        rw [List.mapM_cons, herr]
        rfl
      · intro hno
        exfalso
        rcases h89 with rfl | rfl
        · exact hno (Or.inl (List.mem_cons_self _ _))
        · exact hno (Or.inr (List.mem_cons_self _ _))
    · constructor
      · intro hmem
        have hmem' : '8' ∈ cs ∨ '9' ∈ cs := by
          rcases hmem with hm | hm
          · rcases List.mem_cons.mp hm with rfl | hm'
            · exact absurd (Or.inl rfl) h89
            · exact Or.inl hm'
          · rcases List.mem_cons.mp hm with rfl | hm'
            · exact absurd (Or.inr rfl) h89
            · exact Or.inr hm'
        rw [List.mapM_cons, hok, ihs.1 hmem']
        rfl
      · intro hno
        have hno' : ¬('8' ∈ cs ∨ '9' ∈ cs) := by
          intro hm
          rcases hm with hm | hm
          · exact hno (Or.inl (List.mem_cons_of_mem c hm))
          · exact hno (Or.inr (List.mem_cons_of_mem c hm))
        obtain ⟨ws, hws, hwsmem, hwslen⟩ := ihs.2 hno'
        refine ⟨w :: ws, ?_, ?_, by simp [hwslen]⟩
        · rw [List.mapM_cons, hok, hws]
          rfl
        · intro x hx
          rcases List.mem_cons.mp hx with rfl | hx'
          · exact hwmem
          · exact hwsmem x hx'

lemma mapM_ok_of_all {α β : Type} (f : α → Except Err β) :
    ∀ l : List α, (∀ x ∈ l, isOkE (f x) = true) → ∃ r, l.mapM f = .ok r := by
  intro l
  induction l with
  | nil => exact fun _ => ⟨[], rfl⟩
  | cons x xs ih =>
    intro h
    obtain ⟨v, hv⟩ := (isOkE_true_iff _).mp (h x (List.mem_cons_self x xs))
    obtain ⟨r, hr⟩ := ih (fun y hy => h y (List.mem_cons_of_mem x hy))
    exact ⟨v :: r, by rw [List.mapM_cons, hv, hr]; rfl⟩

lemma weekdays_to_binstrings_intercalate_ok (ws : List Str) (hne : ws ≠ [])
    (hmem : ∀ w ∈ ws, w ∈ weekdaysL) :
    ∃ l, weekdays_to_binstrings (List.intercalate (chars ",") ws) days = .ok l := by
  have hnocomma : ∀ w ∈ ws, ',' ∉ w := by
    intro w hw
    have : ∀ u ∈ weekdaysL, ',' ∉ u := by decide
    exact this w (hmem w hw)
  unfold weekdays_to_binstrings
  rw [show chars "," = [','] from rfl]
  rw [List.splitOn_intercalate _ ',' hnocomma hne]
  apply mapM_ok_of_all
  intro w hw
  have : ∀ u ∈ weekdaysL, isOkE (dictGet days u) = true := by decide
  exact this w (hmem w hw)

/-- Claim C10: in the all-digit day parser, each digit d selects
daylist[int(d) - 1]; digits 1..7 give Monday..Sunday, the digit '0' is
silently accepted and selects Sunday via the Python negative index -1, and a day
expression containing '8' or '9' raises an out-of-range IndexError (rather
than being rejected or skipped), while any other nonempty all-digit
expression succeeds. -/
theorem c10_digit_day_mapping :
    digitToWeekday '1' = .ok (chars "Mo") ∧
    digitToWeekday '2' = .ok (chars "Tu") ∧
    digitToWeekday '3' = .ok (chars "We") ∧
    digitToWeekday '4' = .ok (chars "Th") ∧
    digitToWeekday '5' = .ok (chars "Fr") ∧
    digitToWeekday '6' = .ok (chars "Sa") ∧
    digitToWeekday '7' = .ok (chars "Su") ∧
    digitToWeekday '0' = .ok (chars "Su") ∧
    digitToWeekday '8' = .error .indexError ∧
    digitToWeekday '9' = .error .indexError ∧
    (∀ s : Str, s ≠ [] → (∀ c ∈ s, c.isDigit = true) →
      (('8' ∈ s ∨ '9' ∈ s) → weekdaynumbers_to_binstrings s days = .error .indexError) ∧
      (¬('8' ∈ s ∨ '9' ∈ s) → ∃ l, weekdaynumbers_to_binstrings s days = .ok l)) := by
  refine ⟨by decide, by decide, by decide, by decide, by decide, by decide, by decide,
    by decide, by decide, by decide, ?_⟩
  intro s hne hdig
  obtain ⟨herr, hok⟩ := mapM_digits_spec s hdig
  constructor
  · intro hmem
    unfold weekdaynumbers_to_binstrings
    rw [herr hmem]
  · intro hno
    obtain ⟨ws, hws, hwsmem, hwslen⟩ := hok hno
    have hwsne : ws ≠ [] := by
      intro hnil
      rw [hnil] at hwslen
      exact hne (List.length_eq_zero.mp hwslen.symm)
    obtain ⟨l, hl⟩ := weekdays_to_binstrings_intercalate_ok ws hwsne hwsmem
    refine ⟨l, ?_⟩
    unfold weekdaynumbers_to_binstrings
    rw [hws]
    exact hl

/-- Witness for C10 at concrete inputs: "18" raises IndexError, "1345"
succeeds. -/
theorem c10_digit_day_mapping_witness :
    weekdaynumbers_to_binstrings (chars "18") days = .error .indexError ∧
    ∃ l, weekdaynumbers_to_binstrings (chars "1345") days = .ok l := by
  constructor
  · exact (c10_digit_day_mapping.2.2.2.2.2.2.2.2.2.2 (chars "18") (by decide) (by decide)).1
      (Or.inl (by decide))
  · exact (c10_digit_day_mapping.2.2.2.2.2.2.2.2.2.2 (chars "1345") (by decide) (by decide)).2
      (by decide)

/-- Claim C7 (counterexample): for the relay field "/TJK-DB" the code derives
country "TJK" and site "DB" (split on the hyphen), not the
before-slash/after-slash reading of the spec, which would give country "" and site
"TJK-DB". -/
theorem c7_counterexample :
    parseRelay (chars "CHN") (chars "/TJK-DB") = (chars "TJK", chars "DB") ∧
    parseRelaySpecC7 (chars "CHN") (chars "/TJK-DB") = ([], chars "TJK-DB") ∧
    parseRelay (chars "CHN") (chars "/TJK-DB") ≠
      parseRelaySpecC7 (chars "CHN") (chars "/TJK-DB") := by
  refine ⟨by decide, by decide, by decide⟩

lemma splitOn_eq_takeWhile_cons (sep : Char) :
    ∀ l : Str, l.splitOn sep =
      l.takeWhile (fun c => !(c == sep)) ::
        (if sep ∈ l then ((l.dropWhile (fun c => !(c == sep))).drop 1).splitOn sep
         else []) := by
  intro l
  induction l with
  | nil => simp [List.splitOn, List.splitOnP_nil]
  | cons c cs ih =>
    by_cases hc : c = sep
    · subst hc
      have h1 : (c :: cs).splitOn c = [] :: cs.splitOn c := by
        show (c :: cs).splitOnP (fun x => x == c) = [] :: cs.splitOnP (fun x => x == c)
        rw [List.splitOnP_cons]
        simp
      have h2 : (c :: cs).takeWhile (fun x => !(x == c)) = [] := by
        rw [List.takeWhile_cons]
        simp
      have h3 : ((c :: cs).dropWhile (fun x => !(x == c))).drop 1 = cs := by
        rw [List.dropWhile_cons]
        simp
      rw [h1, h2, h3, if_pos (List.mem_cons_self c cs)]
    · have h1 : (c :: cs).splitOn sep = (cs.splitOn sep).modifyHead (List.cons c) := by
        show (c :: cs).splitOnP (fun x => x == sep) =
          (cs.splitOnP (fun x => x == sep)).modifyHead (List.cons c)
        rw [List.splitOnP_cons]
        simp [hc]
      have h2 : (c :: cs).takeWhile (fun x => !(x == sep)) =
          c :: cs.takeWhile (fun x => !(x == sep)) := by
        rw [List.takeWhile_cons]
        simp [hc]
      have h3 : (c :: cs).dropWhile (fun x => !(x == sep)) =
          cs.dropWhile (fun x => !(x == sep)) := by
        rw [List.dropWhile_cons]
        simp [hc]
      have hmem : (sep ∈ c :: cs) = (sep ∈ cs) := by
        simp only [List.mem_cons, eq_iff_iff]
        constructor
        · rintro (rfl | h)
          · exact absurd rfl hc
          · exact h
        · exact Or.inr
      rw [h1, ih, List.modifyHead_cons, h2, h3]
      simp only [hmem]

/-- Claim C7 (amended): for every source row whose relay field contains a '/',
the field is split on hyphens, not on the slash: the country code used for
the notes and the location lookup is the portion before the first hyphen with
its first character stripped, and the site code is the portion after the
first hyphen up to the second hyphen or the end of the field (empty when the
field contains no hyphen); without a '/', the ITU code and the relay field
pass through unchanged. -/
theorem c7_relay_parse_amended :
    (∀ itu rem : Str, rem.contains '/' = true →
      parseRelay itu rem =
        ((rem.takeWhile (fun c => !(c == '-'))).drop 1,
         ((rem.dropWhile (fun c => !(c == '-'))).drop 1).takeWhile (fun c => !(c == '-')))) ∧
    (∀ itu rem : Str, ¬(rem.contains '/' = true) → parseRelay itu rem = (itu, rem)) := by
  constructor
  · intro itu rem hslash
    unfold parseRelay
    rw [if_pos hslash]
    rw [splitOn_eq_takeWhile_cons '-' rem]
    by_cases hmem : '-' ∈ rem
    · rw [if_pos hmem]
      rw [splitOn_eq_takeWhile_cons '-' ((rem.dropWhile (fun c => !(c == '-'))).drop 1)]
    · rw [if_neg hmem]
      have hd : rem.dropWhile (fun c => !(c == '-')) = [] :=
        List.dropWhile_eq_nil_iff.mpr (fun x hx => by
          rw [Bool.not_eq_true', beq_eq_false_iff_ne]
          rintro rfl
          exact hmem hx)
      rw [hd]
      rfl
  · intro itu rem hslash
    unfold parseRelay
    rw [if_neg hslash]

/-- Witness for the amended C7 at concrete inputs: a two-hyphen relay field, a
hyphen-free relay field with a slash, and a relay field without a slash. -/
theorem c7_relay_parse_amended_witness :
    parseRelay (chars "CHN") (chars "/TJK-DB-X") = (chars "TJK", chars "DB") ∧
    parseRelay (chars "F") (chars "/ISS") = (chars "ISS", []) ∧
    parseRelay (chars "F") (chars "MSK") = (chars "F", chars "MSK") := by
  refine ⟨(c7_relay_parse_amended.1 (chars "CHN") (chars "/TJK-DB-X") (by decide)).trans
      (by decide),
    (c7_relay_parse_amended.1 (chars "F") (chars "/ISS") (by decide)).trans (by decide),
    c7_relay_parse_amended.2 (chars "F") (chars "MSK") (by decide)⟩

/-- Claim C3 (amended): the row produces an intermediate record with
day-letter field "M_WTF__" (quoted in the CSV), begin 0600, end 1800 and
classification T3, exactly as claimed; but feeding that record through the
JSON stage yields the 5-field record whose metadata is T3=1, b0=600, e0=1800,
d0=92: the begin/end offsets ARE emitted (both fields are non-empty), and the
day mask of M_WTF__ (binary 1011100) is 92, not 90. -/
theorem c3_end_to_end :
    (match processRow [] c3row with
     | .ok p => (p.1.dow, p.1.begin, p.1.endt, p.1.typ)
     | .error _ => ([], [], [], [])) =
      (chars "\"M_WTF__\"", chars "0600", chars "1800", chars "\"T3\"") ∧
    (match processRow [] c3row with
     | .ok p =>
       (match jsonRowOfFields (csvParseLine (recLine p.1)) with
        | .ok j => some j.metadata
        | .error _ => none)
     | .error _ => none) =
      some [(chars "T3", 1), (chars "b0", 600), (chars "e0", 1800), (chars "d0", 92)] := by
  exact ⟨by decide, by decide⟩

/-- Claim C3 (counterexample): the metadata computed for that record is not
the claimed T3=1, d0=90 mapping, and it does contain a begin-offset key. -/
theorem c3_counterexample :
    (match processRow [] c3row with
     | .ok p =>
       (match jsonRowOfFields (csvParseLine (recLine p.1)) with
        | .ok j => some j.metadata
        | .error _ => none)
     | .error _ => none) ≠
      some [(chars "T3", 1), (chars "d0", 90)] ∧
    (match processRow [] c3row with
     | .ok p =>
       (match jsonRowOfFields (csvParseLine (recLine p.1)) with
        | .ok j => decide ((chars "b0") ∈ j.metadata.map Prod.fst)
        | .error _ => false)
     | .error _ => false) = true := by
  exact ⟨by decide, by decide⟩

/-- Claim C6 (code bug evaluation): the JSON stage drops the first line of its
input as a supposed header, but the intermediate CSV this pipeline produces
has no header; a one-line input yields an empty output array and a two-line
input yields one element, not one element per non-empty line. -/
theorem c6_header_skip_bug :
    csv_to_json [c6line] = .ok [] ∧
    (match csv_to_json [c6line, c6line] with
     | .ok l => l.length
     | .error _ => 0) = 1 := by
  exact ⟨by decide, by decide⟩

lemma hexUpper_isHexDig (n : Nat) : isHexDig (hexUpper n) = true := by
  have h : n % 16 < 16 := Nat.mod_lt _ (by norm_num)
  have hall : ∀ k, k < 16 → isHexDig ((chars "0123456789ABCDEF").getD k '0') = true := by
    decide
  exact hall (n % 16) h

lemma hexDig_ne_pct {c : Char} (h : isHexDig c = true) : c ≠ '%' := by
  rintro rfl
  exact absurd h (by decide)

lemma unitsOfChar_good (c : Char) : ∀ u ∈ unitsOfChar c, goodUnit u := by
  intro u hu
  unfold unitsOfChar at hu
  by_cases hs : (isAlwaysSafe c || c == ' ') = true
  · rw [if_pos hs] at hu
    simp only [List.mem_singleton] at hu
    subst hu
    refine Or.inl ⟨c, rfl, ?_⟩
    rintro rfl
    exact absurd hs (by decide)
  · rw [if_neg hs] at hu
    obtain ⟨b, _, rfl⟩ := List.mem_map.mp hu
    exact Or.inr ⟨_, _, rfl, hexUpper_isHexDig _, hexUpper_isHexDig _⟩

lemma quoteChar_eq_flatten (c : Char) : quoteChar c = (unitsOfChar c).flatten := by
  unfold quoteChar unitsOfChar
  by_cases hs : (isAlwaysSafe c || c == ' ') = true
  · rw [if_pos hs, if_pos hs]
    rfl
  · rw [if_neg hs, if_neg hs]
    rfl

lemma quote_eq_units (s : Str) : pyQuoteSafeSpace s = (s.flatMap unitsOfChar).flatten := by
  induction s with
  | nil => rfl
  | cons c cs ih =>
    show quoteChar c ++ pyQuoteSafeSpace cs = _
    rw [ih, quoteChar_eq_flatten]
    simp [List.flatMap_cons, List.flatten_append]

lemma substUnit_good (p1 p2 r : Char) (hr : r ≠ '%') (u : Str) (hu : goodUnit u) :
    goodUnit (substUnit ['%', p1, p2] [r] u) := by
  unfold substUnit
  by_cases he : u = ['%', p1, p2]
  · rw [if_pos he]
    exact Or.inl ⟨r, rfl, hr⟩
  · rw [if_neg he]
    exact hu

lemma replaceAllGo_units (p1 p2 r : Char) :
    ∀ (us : List Str) (fuel : Nat), (∀ u ∈ us, goodUnit u) →
      us.flatten.length ≤ fuel →
      replaceAllGo ['%', p1, p2] [r] fuel us.flatten =
        (us.map (substUnit ['%', p1, p2] [r])).flatten := by
  intro us
  induction us with
  | nil =>
    intro fuel _ _
    cases fuel <;> rfl
  | cons u rest ih =>
    intro fuel hg hlen
    have hgrest : ∀ v ∈ rest, goodUnit v := fun v hv => hg v (List.mem_cons_of_mem u hv)
    rcases hg u (List.mem_cons_self u rest) with ⟨a, rfl, ha⟩ | ⟨x, y, rfl, hx, hy⟩
    · simp only [List.flatten_cons, List.singleton_append] at hlen ⊢
      simp only [List.length_cons] at hlen
      cases fuel with
      | zero => omega
      | succ f =>
        have hpre : (['%', p1, p2].isPrefixOf (a :: rest.flatten)) = false := by
          simp only [List.isPrefixOf, Bool.and_eq_false_iff]
          left
          exact beq_eq_false_iff_ne.mpr (fun h => ha h.symm)
        show replaceAllGo ['%', p1, p2] [r] (f + 1) (a :: rest.flatten) = _
        rw [replaceAllGo, if_neg (by simp [hpre])]
        rw [ih f hgrest (by omega)]
        have hne : ([a] : Str) ≠ ['%', p1, p2] := by simp
        simp only [List.map_cons, List.flatten_cons, substUnit, if_neg hne,
          List.singleton_append]
    · simp only [List.flatten_cons, List.cons_append, List.nil_append] at hlen ⊢
      simp only [List.length_cons] at hlen
      cases fuel with
      | zero => omega
      | succ f =>
        by_cases heq : x = p1 ∧ y = p2
        · obtain ⟨rfl, rfl⟩ := heq
          have hpre : (['%', x, y].isPrefixOf ('%' :: x :: y :: rest.flatten)) = true := by
            simp [List.isPrefixOf]
          show replaceAllGo ['%', x, y] [r] (f + 1) ('%' :: x :: y :: rest.flatten) = _
          rw [replaceAllGo, if_pos (by simp [hpre])]
          simp only [List.length_cons, List.length_nil, List.drop_succ_cons, List.drop_zero]
          rw [ih f hgrest (by omega)]
          have he : (['%', x, y] : Str) = ['%', x, y] := rfl
          simp only [List.map_cons, List.flatten_cons, substUnit, if_pos he, if_true,
            eq_self_iff_true, List.singleton_append]
        · have hpre : (['%', p1, p2].isPrefixOf ('%' :: x :: y :: rest.flatten)) = false := by
            simp only [List.isPrefixOf, Bool.and_eq_false_iff]
            rcases not_and_or.mp heq with h | h
            · right; left
              exact beq_eq_false_iff_ne.mpr (fun hh => h hh.symm)
            · right; right; left
              exact beq_eq_false_iff_ne.mpr (fun hh => h hh.symm)
          show replaceAllGo ['%', p1, p2] [r] (f + 1) ('%' :: x :: y :: rest.flatten) = _
          rw [replaceAllGo, if_neg (by simp [hpre])]
          cases f with
          | zero => omega
          | succ f1 =>
            have hprex : (['%', p1, p2].isPrefixOf (x :: y :: rest.flatten)) = false := by
              simp only [List.isPrefixOf, Bool.and_eq_false_iff]
              left
              exact beq_eq_false_iff_ne.mpr (fun h => hexDig_ne_pct hx h.symm)
            rw [replaceAllGo, if_neg (by simp [hprex])]
            cases f1 with
            | zero => omega
            | succ f2 =>
              have hprey : (['%', p1, p2].isPrefixOf (y :: rest.flatten)) = false := by
                simp only [List.isPrefixOf, Bool.and_eq_false_iff]
                left
                exact beq_eq_false_iff_ne.mpr (fun h => hexDig_ne_pct hy h.symm)
              rw [replaceAllGo, if_neg (by simp [hprey])]
              rw [ih f2 hgrest (by omega)]
              have hne : (['%', x, y] : Str) ≠ ['%', p1, p2] := by
                simp only [ne_eq, List.cons.injEq, and_true]
                intro hh
                exact heq ⟨hh.2.1, hh.2.2⟩
              simp only [List.map_cons, List.flatten_cons, substUnit, if_neg hne,
                List.cons_append, List.nil_append]

lemma replaceAll_units (p1 p2 r : Char) (us : List Str) (hg : ∀ u ∈ us, goodUnit u) :
    replaceAll ['%', p1, p2] [r] us.flatten =
      (us.map (substUnit ['%', p1, p2] [r])).flatten :=
  replaceAllGo_units p1 p2 r us us.flatten.length hg (le_refl _)

lemma lowerEscapes_cons_ne (a : Char) (ha : a ≠ '%') (t : Str) :
    lowerEscapes (a :: t) = a :: lowerEscapes t := by
  rcases t with _ | ⟨b, _ | ⟨c, rest⟩⟩ <;> simp [lowerEscapes, ha]

lemma lowerEscapes_triple (x y : Char) (hx : isHexDig x = true) (hy : isHexDig y = true)
    (t : Str) :
    lowerEscapes ('%' :: x :: y :: t) = '%' :: x.toLower :: y.toLower :: lowerEscapes t := by
  simp [lowerEscapes, hx, hy]

lemma lowerEscapes_units : ∀ us : List Str, (∀ u ∈ us, goodUnit u) →
    lowerEscapes us.flatten = (us.map lowerUnit).flatten := by
  intro us
  induction us with
  | nil => intro _; rfl
  | cons u rest ih =>
    intro hg
    have hgrest : ∀ v ∈ rest, goodUnit v := fun v hv => hg v (List.mem_cons_of_mem u hv)
    rcases hg u (List.mem_cons_self u rest) with ⟨a, rfl, ha⟩ | ⟨x, y, rfl, hx, hy⟩
    · simp only [List.flatten_cons, List.singleton_append]
      rw [lowerEscapes_cons_ne a ha, ih hgrest]
      rfl
    · simp only [List.flatten_cons, List.cons_append, List.nil_append]
      rw [lowerEscapes_triple x y hx hy, ih hgrest]
      rfl

lemma map_substUnit_good (p1 p2 r : Char) (hr : r ≠ '%') (us : List Str)
    (hg : ∀ u ∈ us, goodUnit u) :
    ∀ u ∈ us.map (substUnit ['%', p1, p2] [r]), goodUnit u := by
  intro u hu
  obtain ⟨v, hv, rfl⟩ := List.mem_map.mp hu
  exact substUnit_good p1 p2 r hr v (hg v hv)

lemma pipeline_units (us : List Str) (hg : ∀ u ∈ us, goodUnit u) :
    lowerEscapes
      (replaceAll (chars "%26") (chars "&")
        (replaceAll (chars "%29") (chars ")")
          (replaceAll (chars "%28") (chars "(")
            (replaceAll (chars "%2C") (chars ",")
              (replaceAll (chars "%3E") (chars ">")
                (replaceAll (chars "%3C") (chars "<")
                  (replaceAll (chars "%3A") (chars ":")
                    (replaceAll (chars "%20") (chars " ") us.flatten)))))))) =
      (us.map encodeUnitMap).flatten := by
  simp only [show chars "%20" = ['%', '2', '0'] from rfl, show chars " " = [' '] from rfl,
    show chars "%3A" = ['%', '3', 'A'] from rfl, show chars ":" = [':'] from rfl,
    show chars "%3C" = ['%', '3', 'C'] from rfl, show chars "<" = ['<'] from rfl,
    show chars "%3E" = ['%', '3', 'E'] from rfl, show chars ">" = ['>'] from rfl,
    show chars "%2C" = ['%', '2', 'C'] from rfl, show chars "," = [','] from rfl,
    show chars "%28" = ['%', '2', '8'] from rfl, show chars "(" = ['('] from rfl,
    show chars "%29" = ['%', '2', '9'] from rfl, show chars ")" = [')'] from rfl,
    show chars "%26" = ['%', '2', '6'] from rfl, show chars "&" = ['&'] from rfl]
  rw [replaceAll_units '2' '0' ' ' us hg]
  have g1 := map_substUnit_good '2' '0' ' ' (by decide) us hg
  rw [replaceAll_units '3' 'A' ':' _ g1]
  have g2 := map_substUnit_good '3' 'A' ':' (by decide) _ g1
  rw [replaceAll_units '3' 'C' '<' _ g2]
  have g3 := map_substUnit_good '3' 'C' '<' (by decide) _ g2
  rw [replaceAll_units '3' 'E' '>' _ g3]
  have g4 := map_substUnit_good '3' 'E' '>' (by decide) _ g3
  rw [replaceAll_units '2' 'C' ',' _ g4]
  have g5 := map_substUnit_good '2' 'C' ',' (by decide) _ g4
  rw [replaceAll_units '2' '8' '(' _ g5]
  have g6 := map_substUnit_good '2' '8' '(' (by decide) _ g5
  rw [replaceAll_units '2' '9' ')' _ g6]
  have g7 := map_substUnit_good '2' '9' ')' (by decide) _ g6
  rw [replaceAll_units '2' '6' '&' _ g7]
  have g8 := map_substUnit_good '2' '6' '&' (by decide) _ g7
  rw [lowerEscapes_units _ g8]
  simp only [List.map_map]
  exact congrArg List.flatten (List.map_congr_left (fun u _ => rfl))

lemma char_toNat_lt (c : Char) : c.toNat < 1114112 := by
  have hv := c.valid
  have he : c.toNat = c.val.toNat := rfl
  rcases hv with h | ⟨h1, h2⟩ <;> omega

lemma utf8Bytes_lt (c : Char) : ∀ b ∈ utf8Bytes c, b < 256 := by
  intro b hb
  unfold utf8Bytes at hb
  have hv : c.toNat < 1114112 := char_toNat_lt c
  by_cases h1 : c.toNat < 128
  · rw [if_pos h1] at hb
    simp only [List.mem_singleton] at hb
    omega
  · rw [if_neg h1] at hb
    by_cases h2 : c.toNat < 2048
    · rw [if_pos h2] at hb
      simp only [List.mem_cons, List.mem_singleton, List.not_mem_nil, or_false] at hb
      rcases hb with rfl | rfl <;> omega
    · rw [if_neg h2] at hb
      by_cases h3 : c.toNat < 65536
      · rw [if_pos h3] at hb
        simp only [List.mem_cons, List.mem_singleton, List.not_mem_nil, or_false] at hb
        rcases hb with rfl | rfl | rfl <;> omega
      · rw [if_neg h3] at hb
        simp only [List.mem_cons, List.mem_singleton, List.not_mem_nil, or_false] at hb
        rcases hb with rfl | rfl | rfl | rfl <;> omega

lemma utf8Bytes_ge128 (c : Char) (h1 : ¬c.toNat < 128) : ∀ b ∈ utf8Bytes c, 128 ≤ b := by
  intro b hb
  unfold utf8Bytes at hb
  rw [if_neg h1] at hb
  by_cases h2 : c.toNat < 2048
  · rw [if_pos h2] at hb
    simp only [List.mem_cons, List.mem_singleton, List.not_mem_nil, or_false] at hb
    rcases hb with rfl | rfl <;> omega
  · rw [if_neg h2] at hb
    by_cases h3 : c.toNat < 65536
    · rw [if_pos h3] at hb
      simp only [List.mem_cons, List.mem_singleton, List.not_mem_nil, or_false] at hb
      rcases hb with rfl | rfl | rfl <;> omega
    · rw [if_neg h3] at hb
      simp only [List.mem_cons, List.mem_singleton, List.not_mem_nil, or_false] at hb
      rcases hb with rfl | rfl | rfl | rfl <;> omega

lemma byte_unit (b : Fin 256) (hb : ¬(b.val ∈ [32, 58, 60, 62, 44, 40, 41, 38])) :
    encodeUnitMap (pctTriple b.val) = pctTripleLower b.val := by
  revert b
  decide

lemma flatten_map_triple_eq (l : List Nat)
    (h : ∀ b ∈ l, encodeUnitMap (pctTriple b) = pctTripleLower b) :
    ((l.map pctTriple).map encodeUnitMap).flatten = l.flatMap pctTripleLower := by
  induction l with
  | nil => rfl
  | cons b bs ih =>
    simp only [List.map_cons, List.flatten_cons, List.flatMap_cons]
    rw [h b (List.mem_cons_self b bs), ih (fun x hx => h x (List.mem_cons_of_mem b hx))]

lemma encodeUnits_char (c : Char) :
    ((unitsOfChar c).map encodeUnitMap).flatten =
      (if readableSafe c then [c] else (utf8Bytes c).flatMap pctTripleLower) := by
  by_cases hs : (isAlwaysSafe c || c == ' ') = true
  · have hread : readableSafe c = true := by
      have hs' : isAlwaysSafe c = true ∨ (c == ' ') = true := by simpa using hs
      rcases hs' with h | h <;> simp [readableSafe, h]
    rw [if_pos hread]
    unfold unitsOfChar
    rw [if_pos hs]
    have hsub : ∀ p1 p2 r : Char, substUnit ['%', p1, p2] [r] [c] = [c] := by
      intro p1 p2 r
      simp [substUnit]
    have h1 : encodeUnitMap [c] = [c] := by
      unfold encodeUnitMap
      simp only [show chars "%20" = ['%', '2', '0'] from rfl,
        show chars " " = [' '] from rfl,
        show chars "%3A" = ['%', '3', 'A'] from rfl, show chars ":" = [':'] from rfl,
        show chars "%3C" = ['%', '3', 'C'] from rfl, show chars "<" = ['<'] from rfl,
        show chars "%3E" = ['%', '3', 'E'] from rfl, show chars ">" = ['>'] from rfl,
        show chars "%2C" = ['%', '2', 'C'] from rfl, show chars "," = [','] from rfl,
        show chars "%28" = ['%', '2', '8'] from rfl, show chars "(" = ['('] from rfl,
        show chars "%29" = ['%', '2', '9'] from rfl, show chars ")" = [')'] from rfl,
        show chars "%26" = ['%', '2', '6'] from rfl, show chars "&" = ['&'] from rfl]
      rw [hsub, hsub, hsub, hsub, hsub, hsub, hsub, hsub]
      rfl
    simp [h1]
  · by_cases ha : c ∈ [':', '<', '>', ',', '(', ')', '&']
    · fin_cases ha <;> decide
    · have hread : readableSafe c = false := by
        simp only [Bool.or_eq_true, not_or, Bool.not_eq_true] at hs
        simp only [List.mem_cons, List.mem_singleton, List.not_mem_nil, or_false,
          not_or] at ha
        simp only [readableSafe, hs.1, hs.2, Bool.false_or, Bool.or_eq_false_iff,
          beq_eq_false_iff_ne]
        exact ⟨⟨⟨⟨⟨⟨ha.1, ha.2.1⟩, ha.2.2.1⟩, ha.2.2.2.1⟩, ha.2.2.2.2.1⟩,
          ha.2.2.2.2.2.1⟩, ha.2.2.2.2.2.2⟩
      rw [if_neg (by simp [hread])]
      unfold unitsOfChar
      rw [if_neg hs]
      have hby : ∀ b ∈ utf8Bytes c, encodeUnitMap (pctTriple b) = pctTripleLower b := by
        intro b hb
        have hlt := utf8Bytes_lt c b hb
        have hns : ¬(b ∈ [32, 58, 60, 62, 44, 40, 41, 38]) := by
          by_cases h128 : c.toNat < 128
          · have hbv : b = c.toNat := by
              unfold utf8Bytes at hb
              rw [if_pos h128] at hb
              simpa using hb
            subst hbv
            intro hmem
            have hcofn : c = Char.ofNat c.toNat := (Char.ofNat_toNat c).symm
            simp only [List.mem_cons, List.mem_singleton, List.not_mem_nil, or_false]
              at hmem
            simp only [Bool.or_eq_true, not_or, Bool.not_eq_true] at hs
            simp only [List.mem_cons, List.mem_singleton, List.not_mem_nil, or_false,
              not_or] at ha
            rcases hmem with h | h | h | h | h | h | h | h <;> rw [h] at hcofn
            · rw [show Char.ofNat 32 = ' ' from rfl] at hcofn
              subst hcofn
              exact absurd hs.2 (by decide)
            · rw [show Char.ofNat 58 = ':' from rfl] at hcofn
              exact ha.1 hcofn
            · rw [show Char.ofNat 60 = '<' from rfl] at hcofn
              exact ha.2.1 hcofn
            · rw [show Char.ofNat 62 = '>' from rfl] at hcofn
              exact ha.2.2.1 hcofn
            · rw [show Char.ofNat 44 = ',' from rfl] at hcofn
              exact ha.2.2.2.1 hcofn
            · rw [show Char.ofNat 40 = '(' from rfl] at hcofn
              exact ha.2.2.2.2.1 hcofn
            · rw [show Char.ofNat 41 = ')' from rfl] at hcofn
              exact ha.2.2.2.2.2.1 hcofn
            · rw [show Char.ofNat 38 = '&' from rfl] at hcofn
              exact ha.2.2.2.2.2.2 hcofn
          · have hge := utf8Bytes_ge128 c h128 b hb
            intro hmem
            simp only [List.mem_cons, List.mem_singleton, List.not_mem_nil, or_false]
              at hmem
            omega
        exact byte_unit ⟨b, hlt⟩ hns
      exact flatten_map_triple_eq (utf8Bytes c) hby

lemma mapUnits_eq_spec : ∀ s : Str,
    ((s.flatMap unitsOfChar).map encodeUnitMap).flatten = urlEncodeReadable s := by
  intro s
  induction s with
  | nil => rfl
  | cons c cs ih =>
    simp only [List.flatMap_cons, List.map_append, List.flatten_append]
    rw [ih, encodeUnits_char c]
    rfl

/-- Claim C8: the percent-encoder agrees, on every input string, with standard
URL percent-encoding in which (a) spaces stay literal, (b) colon, angle
brackets, comma, parentheses and ampersand stay literal, and (c) every
remaining percent-escape carries lower-case hex digits. -/
theorem c8_encode_preserve_case_spec (s : Str) :
    encode_preserve_case s = urlEncodeReadable s := by
  have hg : ∀ u ∈ s.flatMap unitsOfChar, goodUnit u := by
    intro u hu
    obtain ⟨c, _, hc⟩ := List.mem_flatMap.mp hu
    exact unitsOfChar_good c u hc
  unfold encode_preserve_case
  rw [quote_eq_units]
  rw [pipeline_units _ hg]
  exact mapUnits_eq_spec s
